import Mathlib

/-!
Shallow embedding of the ornate registration-and-dispatch engine.

The repository ships two framework variants concatenated in src/app.ts:
a Koa-based variant (App, AppInjector, AppRegistry from decorators.ts)
and an Express-based variant (App with MODULES/SERVICES caches, Registry).
Definitions below are prefixed koa/express where the variants differ.
Class identities (module classes, service classes) are modelled as Nat
tokens; JavaScript object instances are modelled as Nat identifiers
allocated from a fresh counter.
-/

namespace Ornate

/-! HTTP status codes used by errors.ts (http-status-codes). -/

def UNAUTHORIZED : Nat := 401
def FORBIDDEN : Nat := 403
def BAD_REQUEST : Nat := 400
def CONFLICT : Nat := 409
def INTERNAL_SERVER_ERROR : Nat := 500
def OK : Nat := 200

/-- errors.ts AppError: name, numeric status code, message. -/
structure AppError where
  name : String
  code : Nat
  message : String
deriving DecidableEq, Repr

/-- errors.ts AuthenticationError: status 401. -/
def AuthenticationError (message : String) : AppError :=
  ⟨"AuthenticationError", UNAUTHORIZED, message⟩

/-- errors.ts AuthorizationError: status 403. -/
def AuthorizationError (message : String) : AppError :=
  ⟨"AuthorizationError", FORBIDDEN, message⟩

/-- errors.ts ParameterError: status 400. -/
def ParameterError (message : String) : AppError :=
  ⟨"ParameterError", BAD_REQUEST, message⟩

/-- A thrown JavaScript error: either a recognized AppError or a generic
error (TypeError, plain Error, ...) carrying only a message. -/
inductive Thrown where
  | app (e : AppError)
  | generic (message : String)
deriving DecidableEq, Repr

/-- Status the error mappers assign to a thrown error. The Koa variant
(_initialiseAction) uses err.code with 500 as fallback; the Express
variant (_handleMiddlewareError / _handleActionError) branches on
err instanceof AppError, defaulting to 500. Both give the same map. -/
def Thrown.status : Thrown → Nat
  | .app e => e.code
  | .generic _ => INTERNAL_SERVER_ERROR

/-- decorators.ts ERequestMethod. -/
inductive ERequestMethod where
  | GET | POST | PUT | DELETE | OPTIONS | HEAD | PATCH
deriving DecidableEq, Repr

/-- decorators.ts EArgType (the subset the request pipeline reads). -/
inductive EArgType where
  | context | state | host | hostname | header | method | route
  | body | param | query | request | response
deriving DecidableEq, Repr

/-- String tag of an EArgType, as in the const enum values (used in
ParameterError messages of _handleRequestSource). -/
def EArgType.label : EArgType → String
  | .context => "context"
  | .state => "state"
  | .host => "host"
  | .hostname => "hostname"
  | .header => "header"
  | .method => "method"
  | .route => "route"
  | .body => "body"
  | .param => "param"
  | .query => "query"
  | .request => "request"
  | .response => "response"

/-! ## Route composition (App._registerModule / _registerController /
_registerAction, identical formulas in both variants). -/

/-- app.ts line 484: module route is parentRoute + "/" + ownRoute when the
module declares a route, else the parent route unchanged. The root
module's parent route is the empty string. -/
def moduleRoute (parentRoute : String) (ownRoute : Option String) : String :=
  match ownRoute with
  | some r => parentRoute ++ "/" ++ r
  | none => parentRoute

/-- app.ts lines 599-601: controller route is moduleRoute + "/" +
controllerRoute, where an undefined controller route counts as "". -/
def controllerRoute (modRoute : String) (ownRoute : Option String) : String :=
  modRoute ++ "/" ++ (ownRoute.getD "")

/-- app.ts line 623: the action route suffix is appended to the controller
route unless it is the empty string, in which case the action serves at
exactly the controller route. -/
def actionRoute (ctrlRoute : String) (ownRoute : String) : String :=
  if ownRoute ≠ "" then ctrlRoute ++ "/" ++ ownRoute else ctrlRoute

/-- app.ts lines 643-662: the method switch in _registerAction registers
GET/PUT/POST/DELETE with the router and throws on any other method. -/
def registerRoute (method : ERequestMethod) (path : String) :
    Except String (ERequestMethod × String) :=
  match method with
  | .GET => .ok (.GET, path)
  | .PUT => .ok (.PUT, path)
  | .POST => .ok (.POST, path)
  | .DELETE => .ok (.DELETE, path)
  | _ => .error "[ornate] Unhandled request method"

/-! ## Decorator-time argument accumulation (decorators.ts
AppRegistry.defineResourceArg). -/

/-- decorators.ts IResourceArgMetadata. -/
structure IResourceArgMetadata where
  type : EArgType
  index : Nat
  name : String
  required : Bool
deriving DecidableEq, Repr

/-- Parameter decorators of one handler execute right-to-left in source
order; each call to AppRegistry.defineResourceArg (decorators.ts lines
610-630) unshifts its entry onto the accumulated list. Given the
declarations in source (left-to-right) order, this folds over them in
execution (reversed) order, prepending each. -/
def accumulateResourceArgs (decls : List IResourceArgMetadata) :
    List IResourceArgMetadata :=
  decls.reverse.foldl (fun acc d => d :: acc) []

/-! ## Dependency injection caches.
Koa variant: AppInjector.newService (app.ts lines 184-191).
Express variant: App._getServiceInstance (app.ts lines 2446-2454).
Both look up the target class in a map and construct only on a miss.
Object construction is modelled as drawing a fresh instance identifier
from a counter, so reference equality is identifier equality. -/

/-- Cache state: association list from service class token to instance
identifier, plus the next fresh identifier. -/
structure InjectorState where
  services : List (Nat × Nat)
  nextId : Nat
deriving DecidableEq, Repr

/-- AppInjector.newService: return the cached instance for the target
class, or construct one, cache it and return it. -/
def newService (target : Nat) (st : InjectorState) : Nat × InjectorState :=
  match st.services.lookup target with
  | some instanceId => (instanceId, st)
  | none => (st.nextId, ⟨(target, st.nextId) :: st.services, st.nextId + 1⟩)

/-- App._getServiceInstance (Express variant): same cache-on-miss shape
over the SERVICES map. -/
def getServiceInstance (target : Nat) (st : InjectorState) : Nat × InjectorState :=
  match st.services.lookup target with
  | some instanceId => (instanceId, st)
  | none => (st.nextId, ⟨(target, st.nextId) :: st.services, st.nextId + 1⟩)

/-! ## Express permission check (App._checkPermissions, app.ts lines
1817-1857) and the IAuthorizationService contract (lines 1339-1342). -/

/-- A JavaScript Promise value, wrapping the value it resolves to. As a
JavaScript object, a Promise is truthy no matter what it resolves to. -/
structure JsPromise (α : Type) where
  resolvesTo : α
deriving DecidableEq, Repr

/-- JavaScript truthiness of a Promise object: always true. -/
def JsPromise.truthy {α : Type} (_ : JsPromise α) : Bool := true

/-- IAuthentication, as far as the permission check consumes it. -/
structure IAuthentication where
  userId : String
  userName : String
deriving DecidableEq, Repr

/-- IAuthorizationService.checkRoutePermissions is declared to return
Promise of boolean (app.ts lines 1339-1342). -/
structure IAuthorizationService where
  checkRoutePermissions :
    List IAuthentication → ERequestMethod → String → JsPromise Bool

/-- Outcome of the _checkPermissions middleware for one request. -/
inductive PermOutcome where
  | nextCalled
  | forbidden (status : Nat)
deriving DecidableEq, Repr

/-- App._checkPermissions (Express variant): when no authorization service
is configured it calls next(); otherwise it calls checkRoutePermissions
WITHOUT awaiting and branches on the truthiness of the returned Promise
object, sending 403 FORBIDDEN in the false branch. -/
def checkPermissions (auth : Option IAuthorizationService)
    (authentication : List IAuthentication)
    (method : ERequestMethod) (route : String) : PermOutcome :=
  match auth with
  | none => .nextCalled
  | some svc =>
      let result := svc.checkRoutePermissions authentication method route
      if result.truthy then .nextCalled else .forbidden FORBIDDEN

/-! ## Action metadata and middleware chains.
Metadata-registry lookups are modelled as functions from
(service class token, middleware name) to an optional middleware record,
matching AppRegistry.getAuthenticationMetadata / getPolicyMetadata /
getGenericMetadata / getResolverMetadata (Koa, keyed additionally by the
middleware category) and Registry.getMiddlewareMetadata (Express). -/

/-- decorators.ts IMiddlewareMetadata, as far as route binding consumes
it: the owning service class and the middleware name. Handler body and
nested bindings are irrelevant to the chain-structure claims. -/
structure IMiddlewareMetadata where
  service : Nat
  name : String
deriving DecidableEq, Repr

/-- A registry lookup keyed by (service class, name). -/
def MwLookup : Type := Nat → String → Option IMiddlewareMetadata

/-- decorators.ts IActionAuthenticationMetadata (Koa) /
IActionAuthMetadata (Express, which adds the bound argument index). -/
structure IActionAuthMetadata where
  service : Nat
  name : String
  index : Nat
deriving DecidableEq, Repr

/-- IActionAuthorizationMetadata (Koa): an Authorize entry. -/
structure IActionAuthorizationMetadata where
  service : Nat
  name : String
deriving DecidableEq, Repr

/-- IActionResourceMetadata (Express): a resolver bound to an argument
index, with its required flag. -/
structure IActionResourceMetadata where
  service : Nat
  name : String
  index : Nat
  required : Bool
deriving DecidableEq, Repr

/-- IActionPolicyMetadata (Express): a policy bound to an argument index. -/
structure IActionPolicyMetadata where
  service : Nat
  name : String
  index : Nat
deriving DecidableEq, Repr

/-- decorators.ts EMiddlewareOrder. -/
inductive EMiddlewareOrder where
  | before
  | after
deriving DecidableEq, Repr

/-- IActionGenericMetadata (Koa) / IActionMiddlewareMetadata (Express):
a generic before/after hook entry on an action. -/
structure IActionGenericMetadata where
  service : Nat
  name : String
  order : EMiddlewareOrder
deriving DecidableEq, Repr

/-- IResourceResolverMetadata (Koa decorators.ts): note the Resolve
decorator stores optional = (required === false); the Koa request
pipeline never reads this field. -/
structure IResourceResolverMetadata where
  service : Nat
  index : Nat
  name : String
  optional : Bool
deriving DecidableEq, Repr

/-- IResourceValidatorMetadata (Koa decorators.ts). -/
structure IResourceValidatorMetadata where
  service : Nat
  index : Nat
  name : String
deriving DecidableEq, Repr

/-- Action metadata of the Koa variant (decorators.ts IActionMetadata). -/
structure KoaActionMetadata where
  method : ERequestMethod
  route : String
  authentication : List IActionAuthMetadata
  authorization : List IActionAuthorizationMetadata
  generics : List IActionGenericMetadata
  args : List IResourceArgMetadata
  resolvers : List IResourceResolverMetadata
  validators : List IResourceValidatorMetadata
deriving DecidableEq, Repr

/-- Action metadata of the Express variant (IActionMetadata of the
Express decorators, with the action middlewares fetched from
Registry.getActionMiddlewareMetadata folded in as a field). -/
structure ExpressActionMetadata where
  method : ERequestMethod
  route : String
  auth : List IActionAuthMetadata
  resolve : List IActionResourceMetadata
  policies : List IActionPolicyMetadata
  middlewares : List IActionGenericMetadata
  args : List IResourceArgMetadata
deriving DecidableEq, Repr

/-- One entry of a registered middleware chain, tagged by the stage it
implements. -/
inductive Stage where
  | initialise
  | authentication (service : Nat) (name : String)
  | authorization (service : Nat) (name : String)
  | resolver (service : Nat) (name : String)
  | checkPermissions
  | policy (service : Nat) (name : String)
  | generic (order : EMiddlewareOrder) (service : Nat) (name : String)
  | action
deriving DecidableEq, Repr

/-! Koa variant chain binding. Each bind helper throws (Except.error) on a
missing registry lookup, exactly as App._bindAuthentication (lines
714-744), _bindAuthorization (746-776) and _bindGenerics (778-803) do at
route-binding time. -/

/-- App._bindAuthentication (Koa): look each entry up in the
authentication registry; a miss throws at bind time. -/
def koaBindAuthentication (lookupAuth : MwLookup) :
    List IActionAuthMetadata → Except String (List Stage)
  | [] => .ok []
  | a :: rest =>
      match lookupAuth a.service a.name with
      | none => .error ("[ornate] Authentication metadata not found for: " ++ a.name)
      | some _ =>
          match koaBindAuthentication lookupAuth rest with
          | .error e => .error e
          | .ok hs => .ok (Stage.authentication a.service a.name :: hs)

/-- App._bindAuthorization (Koa): look each entry up in the policy
registry; a miss throws at bind time. -/
def koaBindAuthorization (lookupPolicy : MwLookup) :
    List IActionAuthorizationMetadata → Except String (List Stage)
  | [] => .ok []
  | a :: rest =>
      match lookupPolicy a.service a.name with
      | none => .error ("[ornate] Policy metadata not found for: " ++ a.name)
      | some _ =>
          match koaBindAuthorization lookupPolicy rest with
          | .error e => .error e
          | .ok hs => .ok (Stage.authorization a.service a.name :: hs)

/-- Inner loop of App._bindGenerics (Koa) over the already filtered and
reversed list: a miss in the generic registry throws at bind time. -/
def koaBindGenericList (lookupGeneric : MwLookup) :
    List IActionGenericMetadata → Except String (List Stage)
  | [] => .ok []
  | g :: rest =>
      match lookupGeneric g.service g.name with
      | none => .error ("[ornate] Generic metadata not found for: " ++ g.name)
      | some _ =>
          match koaBindGenericList lookupGeneric rest with
          | .error e => .error e
          | .ok hs => .ok (Stage.generic g.order g.service g.name :: hs)

/-- App._bindGenerics (Koa): filter the action's generics by order,
reverse, then bind each. -/
def koaBindGenerics (lookupGeneric : MwLookup) (generics : List IActionGenericMetadata)
    (order : EMiddlewareOrder) : Except String (List Stage) :=
  koaBindGenericList lookupGeneric ((generics.filter (fun m => m.order = order)).reverse)

/-- App._registerAction (Koa, lines 634-641): the handlers array is
[initialise, ...authentication, ...authorization, ...before, action,
...after]. Resolvers and validators are not separate chain entries in
this variant; they run inside _handleAction. -/
def koaRegisterActionHandlers (lookupAuth lookupPolicy lookupGeneric : MwLookup)
    (a : KoaActionMetadata) : Except String (List Stage) :=
  match koaBindAuthentication lookupAuth a.authentication with
  | .error e => .error e
  | .ok auths =>
      match koaBindAuthorization lookupPolicy a.authorization with
      | .error e => .error e
      | .ok authzs =>
          match koaBindGenerics lookupGeneric a.generics .before with
          | .error e => .error e
          | .ok befores =>
              match koaBindGenerics lookupGeneric a.generics .after with
              | .error e => .error e
              | .ok afters =>
                  .ok ([Stage.initialise] ++ auths ++ authzs ++ befores
                       ++ [Stage.action] ++ afters)

/-! Express variant chain binding. Each bind helper maps entries to an
optional handler, returning undefined (none) on a missing lookup after
logging a warning, and then filters the undefined handlers out — exactly
App._bindAuthResolvers (lines 1859-1885), _bindResourceResolvers
(1887-1917), _bindPolicies (1919-1945) and _bindMiddlewares (1947-1979). -/

/-- App._bindAuthResolvers (Express): a missing lookup logs a warning and
yields no handler; no error is raised. -/
def expressBindAuthResolvers (lookup : MwLookup)
    (auth : List IActionAuthMetadata) : List Stage :=
  (auth.map (fun a =>
    (lookup a.service a.name).map (fun _ => Stage.authentication a.service a.name))).reduceOption

/-- App._bindResourceResolvers (Express): same skip-on-miss shape. -/
def expressBindResourceResolvers (lookup : MwLookup)
    (resolve : List IActionResourceMetadata) : List Stage :=
  (resolve.map (fun r =>
    (lookup r.service r.name).map (fun _ => Stage.resolver r.service r.name))).reduceOption

/-- App._bindPolicies (Express): same skip-on-miss shape. -/
def expressBindPolicies (lookup : MwLookup)
    (policies : List IActionPolicyMetadata) : List Stage :=
  (policies.map (fun p =>
    (lookup p.service p.name).map (fun _ => Stage.policy p.service p.name))).reduceOption

/-- App._bindMiddlewares (Express): filter the action middlewares by
order, reverse, then map with skip-on-miss. -/
def expressBindMiddlewares (lookup : MwLookup)
    (middlewares : List IActionGenericMetadata) (order : EMiddlewareOrder) : List Stage :=
  (((middlewares.filter (fun m => m.order = order)).reverse).map (fun m =>
    (lookup m.service m.name).map (fun _ => Stage.generic m.order m.service m.name))).reduceOption

/-- App._registerAction (Express, lines 1736-1745): the handlers array is
[initialise, ...auth, ...resolve, checkPermissions, ...policies,
...before, action, ...after]. -/
def expressRegisterActionHandlers (lookup : MwLookup)
    (a : ExpressActionMetadata) : List Stage :=
  [Stage.initialise]
    ++ expressBindAuthResolvers lookup a.auth
    ++ expressBindResourceResolvers lookup a.resolve
    ++ [Stage.checkPermissions]
    ++ expressBindPolicies lookup a.policies
    ++ expressBindMiddlewares lookup a.middlewares .before
    ++ [Stage.action]
    ++ expressBindMiddlewares lookup a.middlewares .after

/-- The chain length the claim (spec section 8, first bullet) predicts
for an action: 1 (init) + |authentication| + |resolvers| + |validators| +
|before| + 1 (action) + |after|. -/
def claimedChainLength (nAuth nResolvers nValidators nBefore nAfter : Nat) : Nat :=
  1 + nAuth + nResolvers + nValidators + nBefore + 1 + nAfter

/-! ## Request-time execution of a bound chain (authentication and the
action), per variant. A middleware invocation is modelled by its
observable result: a thrown error or a returned value. -/

/-- One Koa chain entry relevant to the authentication claim: a bound
authentication middleware (identified by its declared name, with the
truthiness of the value its handler produced, or the error it threw) or
the action handler (with the status its response carries). -/
inductive KoaStage where
  | auth (name : String) (result : Except Thrown Bool)
  | action (status : Nat)
deriving Repr

/-- Execution of a Koa chain of authentication middlewares and the
action, as compiled by _registerAction. The middleware returned by
_bindAuthentication (lines 729-742) awaits the handler and throws
AuthenticationError when the result is falsy, else calls next();
_initialiseAction (lines 675-712) catches any throw and responds with
err.code (500 when the error carries no code). The accumulator is the
current response status (Koa's default 404 initially) and whether the
action handler has been invoked. -/
def koaExec : List KoaStage → Nat → Bool → Nat × Bool
  | [], status, invoked => (status, invoked)
  | KoaStage.auth name r :: rest, status, invoked =>
      match r with
      | .error t => (t.status, invoked)
      | .ok false =>
          ((Thrown.app (AuthenticationError
            ("[ornate] Authentication required. " ++ name))).status, invoked)
      | .ok true => koaExec rest status invoked
  | KoaStage.action s :: rest, _, _ => koaExec rest s true

/-- One Express chain entry relevant to the authentication claim: a bound
auth middleware (with the principal value its handler produced — modelled
as an optional value, none standing for a falsy result — or the error it
threw) or the action handler. -/
inductive ExpressStage where
  | auth (name : String) (result : Except Thrown (Option Nat))
  | action (status : Nat)
deriving Repr

/-- Execution of an Express chain of auth middlewares and the action.
App._handleAuth (lines 1992-2039) stores the handler's result in
req.args and req.auth and calls next() WITHOUT inspecting the result; a
thrown error goes to _handleMiddlewareError, which responds with
err.code for an AppError and 500 otherwise. -/
def expressExec : List ExpressStage → Nat → Bool → Nat × Bool
  | [], status, invoked => (status, invoked)
  | ExpressStage.auth _ r :: rest, status, invoked =>
      match r with
      | .error t => (t.status, invoked)
      | .ok _ => expressExec rest status invoked
  | ExpressStage.action s :: rest, _, _ => expressExec rest s true

/-! ## Resolver handling at request time. JS argument arrays written by
indexed assignment are modelled as functions from position to optional
value (a missing position reads as undefined); the Express variant's
req.args is a materialised array with an explicit bounds check in
_handleResolve, so it is modelled as a Lean list there. -/

/-- App._handleResolve (Express, lines 2041-2095): after the bounds check
on req.args, the resolver handler runs; a result of undefined with
required === true throws ParameterError, else the result is written to
req.args at the bound index and next() is called. A thrown error (from
the handler or the checks) goes to _handleMiddlewareError. -/
def expressHandleResolve (resourceMetadata : IActionResourceMetadata)
    (result : Except Thrown (Option String)) (args : List (Option String)) :
    Except Thrown (List (Option String)) :=
  if args.length ≤ resourceMetadata.index then
    .error (.generic ("[ornate] Invalid resource: " ++ resourceMetadata.name))
  else
    match result with
    | .error t => .error t
    | .ok v =>
        if v.isNone && resourceMetadata.required then
          .error (.app (ParameterError
            ("[ornate] Could not resolve resource: " ++ resourceMetadata.name)))
        else
          .ok (args.set resourceMetadata.index v)

/-- App._handleResourceResolvers (Koa, lines 972-994): for each declared
resolver, the registry lookup happens here, per request, and a miss
throws ParameterError; on a hit the middleware runs and its result is
assigned to args at the bound index with no undefined/required check.
The value a resolver middleware returns is supplied by mwResult, keyed
like the lookup. -/
def koaHandleResourceResolvers (lookupResolver : MwLookup)
    (mwResult : Nat → String → Option String) :
    List IResourceResolverMetadata → (Nat → Option String) →
    Except Thrown (Nat → Option String)
  | [], args => .ok args
  | r :: rest, args =>
      match lookupResolver r.service r.name with
      | none =>
          .error (.app (ParameterError
            ("[ornate] Resolver metadata not found for: " ++ r.name)))
      | some _ =>
          koaHandleResourceResolvers lookupResolver mwResult rest
            (fun j => if j = r.index then mwResult r.service r.name else args j)

/-- App._handleResourceValidators (Koa, lines 996-1022): for each
declared validator, the policy registry lookup happens here, per
request, and a miss throws ParameterError; on a hit the policy runs and
a falsy result throws AuthorizationError. The boolean a policy returns
is supplied by mwResult, keyed like the lookup. -/
def koaHandleResourceValidators (lookupPolicy : MwLookup)
    (mwResult : Nat → String → Bool) :
    List IResourceValidatorMetadata → Except Thrown Unit
  | [] => .ok ()
  | v :: rest =>
      match lookupPolicy v.service v.name with
      | none =>
          .error (.app (ParameterError
            ("[ornate] Validator policy metadata not found for: " ++ v.name)))
      | some _ =>
          if mwResult v.service v.name then
            koaHandleResourceValidators lookupPolicy mwResult rest
          else
            .error (.app (AuthorizationError
              ("[ornate] Unauthorized resource access. Policy: " ++ v.name)))

/-! ## Request argument extraction from a request facet. A facet
(headers / params / query / body) is a partial map from key to value. -/

/-- App._handleRequestSource (Koa, lines 1024-1048): for each declared
binding, a required binding whose key is absent from the facet throws
ParameterError; otherwise the facet value (possibly undefined) is
assigned to args at the bound index and the key is recorded. -/
def koaHandleRequestSource (source : String → Option String) :
    List IResourceArgMetadata → (Nat → Option String) →
    Except Thrown ((Nat → Option String) × List String)
  | [], args => .ok (args, [])
  | am :: rest, args =>
      if am.required && (source am.name).isNone then
        .error (.app (ParameterError
          ("[ornate] Required " ++ am.type.label ++ " argument not found: " ++ am.name)))
      else
        match koaHandleRequestSource source rest
            (fun j => if j = am.index then source am.name else args j) with
        | .error t => .error t
        | .ok (a, keys) => .ok (a, am.name :: keys)

/-- App._handleRequestSource (Express, lines 2401-2422): the facet itself
may be undefined (none); the key is lowercased for headers; presence is
tested with hasOwnProperty. A required binding with the facet undefined
or the key absent throws ParameterError; reading a property of an
undefined facet for a non-required binding throws a TypeError (a generic
error, mapped to 500). -/
def expressHandleRequestSource (source : Option (String → Option String))
    (lowercase : Bool) :
    List IResourceArgMetadata → (Nat → Option String) →
    Except Thrown ((Nat → Option String) × List String)
  | [], args => .ok (args, [])
  | am :: rest, args =>
      let key := if lowercase then am.name.toLower else am.name
      match source with
      | none =>
          if am.required then
            .error (.app (ParameterError
              ("[ornate] Required " ++ am.type.label ++ " argument not found: " ++ am.name)))
          else
            .error (.generic "TypeError: cannot read properties of undefined")
      | some src =>
          if am.required && (src key).isNone then
            .error (.app (ParameterError
              ("[ornate] Required " ++ am.type.label ++ " argument not found: " ++ am.name)))
          else
            match expressHandleRequestSource source lowercase rest
                (fun j => if j = am.index then src key else args j) with
            | .error t => .error t
            | .ok (a, keys) => .ok (a, am.name :: keys)

/-! ## Module tree registration. A module declaration carries its class
identity token, its optional route segment and its submodule list; the
same class (same token, same declaration) may be referenced from several
submodule lists. -/

/-- A declared module class: identity token, route param, submodules. -/
inductive ModuleDecl : Type where
  | mk (classId : Nat) (route : Option String) (modules : List ModuleDecl)

/-- Class identity token of a module declaration. -/
def ModuleDecl.classId : ModuleDecl → Nat
  | .mk i _ _ => i

/-- App._registerModule (Koa, lines 479-527): every registration executes
new targetModule() (line 481) before recursing into the submodule list,
so the walk emits one construction per visit. The result is the list of
class tokens in construction order. -/
def koaModuleConstructionList : List ModuleDecl → List Nat
  | [] => []
  | ModuleDecl.mk i _ ms :: rest =>
      i :: (koaModuleConstructionList ms ++ koaModuleConstructionList rest)

/-- App._registerModule (Express, lines 1570-1619) obtains the instance
through _getModuleInstance (lines 2436-2444), which constructs only on a
MODULES-cache miss, then recurses into the submodule list. The walk
carries the cache (list of class tokens already constructed) and returns
the final cache together with the list of constructions performed. -/
def expressModuleWalk : List Nat → List ModuleDecl → List Nat × List Nat
  | cache, [] => (cache, [])
  | cache, ModuleDecl.mk i _ ms :: rest =>
      if i ∈ cache then
        let sub := expressModuleWalk cache ms
        let sib := expressModuleWalk sub.1 rest
        (sib.1, sub.2 ++ sib.2)
      else
        let sub := expressModuleWalk (i :: cache) ms
        let sib := expressModuleWalk sub.1 rest
        (sib.1, i :: (sub.2 ++ sib.2))

/-- Constructions performed when registering a root module list on a
fresh Express App (empty MODULES cache). -/
def expressModuleConstructionList (rootModules : List ModuleDecl) : List Nat :=
  (expressModuleWalk [] rootModules).2

/-! ## Helper lemmas. -/

/-- Folding cons over a list prepends its reverse. -/
theorem foldl_cons_eq_reverse_append {α : Type} (l acc : List α) :
    l.foldl (fun acc d => d :: acc) acc = l.reverse ++ acc := by
  induction l generalizing acc with
  | nil => simp
  | cons x xs ih => simp [List.foldl_cons, ih]

/-- When every element maps to some value, map-then-reduceOption equals
mapping the extracted values. -/
theorem reduceOption_map_all_some {α β : Type} (l : List α)
    (f : α → Option β) (g : α → β) (h : ∀ x ∈ l, f x = some (g x)) :
    (l.map f).reduceOption = l.map g := by
  induction l with
  | nil => simp
  | cons x xs ih =>
      have hx : f x = some (g x) := h x (by simp)
      simp [hx, List.reduceOption_cons_of_some,
        ih (fun y hy => h y (by simp [hy]))]

/-- Invariant of the Express module walk: the constructions performed
are mutually distinct, none of them was already cached, and the final
cache holds exactly the initial cache plus the constructions. -/
theorem expressModuleWalk_spec (cache : List Nat) (ms : List ModuleDecl) :
    (expressModuleWalk cache ms).2.Nodup
    ∧ (∀ x ∈ (expressModuleWalk cache ms).2, x ∉ cache)
    ∧ (∀ x, x ∈ (expressModuleWalk cache ms).1
        ↔ x ∈ cache ∨ x ∈ (expressModuleWalk cache ms).2) := by
  induction cache, ms using expressModuleWalk.induct with
  | case1 cache =>
      simp [expressModuleWalk]
  | case2 cache i route ms rest hi sub ihsub ihsib =>
      have hsubdef : sub = expressModuleWalk cache ms := rfl
      clear_value sub
      subst hsubdef
      obtain ⟨hsubN, hsubC, hsubM⟩ := ihsub
      obtain ⟨hsibN, hsibC, hsibM⟩ := ihsib
      have hw : expressModuleWalk cache (ModuleDecl.mk i route ms :: rest)
          = ((expressModuleWalk (expressModuleWalk cache ms).1 rest).1,
             (expressModuleWalk cache ms).2
               ++ (expressModuleWalk (expressModuleWalk cache ms).1 rest).2) := by
        simp [expressModuleWalk, hi]
      rw [hw]
      refine ⟨?_, ?_, ?_⟩
      · refine List.Nodup.append hsubN hsibN ?_
        intro x hx1 hx2
        exact hsibC x hx2 ((hsubM x).2 (Or.inr hx1))
      · intro x hx
        rcases List.mem_append.mp hx with h1 | h2
        · exact hsubC x h1
        · exact fun hc => hsibC x h2 ((hsubM x).2 (Or.inl hc))
      · intro x
        rw [hsibM x, hsubM x, List.mem_append]
        tauto
  | case3 cache i route ms rest hi sub ihsub ihsib =>
      have hsubdef : sub = expressModuleWalk (i :: cache) ms := rfl
      clear_value sub
      subst hsubdef
      obtain ⟨hsubN, hsubC, hsubM⟩ := ihsub
      obtain ⟨hsibN, hsibC, hsibM⟩ := ihsib
      have hw : expressModuleWalk cache (ModuleDecl.mk i route ms :: rest)
          = ((expressModuleWalk (expressModuleWalk (i :: cache) ms).1 rest).1,
             i :: ((expressModuleWalk (i :: cache) ms).2
               ++ (expressModuleWalk (expressModuleWalk (i :: cache) ms).1 rest).2)) := by
        simp [expressModuleWalk, hi]
      rw [hw]
      have hiSub1 : i ∈ (expressModuleWalk (i :: cache) ms).1 :=
        (hsubM i).2 (Or.inl (by simp))
      refine ⟨?_, ?_, ?_⟩
      · refine List.Nodup.cons ?_ (List.Nodup.append hsubN hsibN ?_)
        · intro hmem
          rcases List.mem_append.mp hmem with h1 | h2
          · exact hsubC i h1 (by simp)
          · exact hsibC i h2 hiSub1
        · intro x hx1 hx2
          exact hsibC x hx2 ((hsubM x).2 (Or.inr hx1))
      · intro x hx
        rcases List.mem_cons.mp hx with h0 | hx
        · exact h0 ▸ hi
        · rcases List.mem_append.mp hx with h1 | h2
          · exact fun hc => hsubC x h1 (List.mem_cons.mpr (Or.inr hc))
          · exact fun hc =>
              hsibC x h2 ((hsubM x).2 (Or.inl (List.mem_cons.mpr (Or.inr hc))))
      · intro x
        rw [hsibM x, hsubM x, List.mem_cons, List.mem_cons, List.mem_append]
        tauto

/-- When every authentication entry resolves, the Koa bind yields the
entries' stages in declaration order. -/
theorem koaBindAuthentication_all (lA : MwLookup) (l : List IActionAuthMetadata)
    (h : ∀ x ∈ l, (lA x.service x.name).isSome = true) :
    koaBindAuthentication lA l
      = Except.ok (l.map fun x => Stage.authentication x.service x.name) := by
  induction l with
  | nil => rfl
  | cons x xs ih =>
      obtain ⟨m, hm⟩ := Option.isSome_iff_exists.mp (h x (by simp))
      simp [koaBindAuthentication, hm, ih (fun y hy => h y (by simp [hy]))]

/-- When every authorization entry resolves, the Koa bind yields the
entries' stages in declaration order. -/
theorem koaBindAuthorization_all (lP : MwLookup) (l : List IActionAuthorizationMetadata)
    (h : ∀ x ∈ l, (lP x.service x.name).isSome = true) :
    koaBindAuthorization lP l
      = Except.ok (l.map fun x => Stage.authorization x.service x.name) := by
  induction l with
  | nil => rfl
  | cons x xs ih =>
      obtain ⟨m, hm⟩ := Option.isSome_iff_exists.mp (h x (by simp))
      simp [koaBindAuthorization, hm, ih (fun y hy => h y (by simp [hy]))]

/-- When every generic entry resolves, the Koa bind yields the entries'
stages in list order. -/
theorem koaBindGenericList_all (lG : MwLookup) (l : List IActionGenericMetadata)
    (h : ∀ x ∈ l, (lG x.service x.name).isSome = true) :
    koaBindGenericList lG l
      = Except.ok (l.map fun x => Stage.generic x.order x.service x.name) := by
  induction l with
  | nil => rfl
  | cons x xs ih =>
      obtain ⟨m, hm⟩ := Option.isSome_iff_exists.mp (h x (by simp))
      simp [koaBindGenericList, hm, ih (fun y hy => h y (by simp [hy]))]

/-- A missing authentication lookup makes the Koa bind throw. -/
theorem koaBindAuthentication_missing (lA : MwLookup) (l : List IActionAuthMetadata)
    (h : ∃ x ∈ l, lA x.service x.name = none) :
    ∃ e, koaBindAuthentication lA l = Except.error e := by
  induction l with
  | nil => simp at h
  | cons x xs ih =>
      cases hx : lA x.service x.name with
      | none =>
          exact ⟨"[ornate] Authentication metadata not found for: " ++ x.name,
            by simp [koaBindAuthentication, hx]⟩
      | some m =>
          obtain ⟨y, hy, hyn⟩ := h
          rcases List.mem_cons.mp hy with rfl | hmem
          · rw [hx] at hyn
            cases hyn
          · obtain ⟨e, he⟩ := ih ⟨y, hmem, hyn⟩
            exact ⟨e, by simp [koaBindAuthentication, hx, he]⟩

/-- A missing policy lookup makes the Koa authorization bind throw. -/
theorem koaBindAuthorization_missing (lP : MwLookup)
    (l : List IActionAuthorizationMetadata)
    (h : ∃ x ∈ l, lP x.service x.name = none) :
    ∃ e, koaBindAuthorization lP l = Except.error e := by
  induction l with
  | nil => simp at h
  | cons x xs ih =>
      cases hx : lP x.service x.name with
      | none =>
          exact ⟨"[ornate] Policy metadata not found for: " ++ x.name,
            by simp [koaBindAuthorization, hx]⟩
      | some m =>
          obtain ⟨y, hy, hyn⟩ := h
          rcases List.mem_cons.mp hy with rfl | hmem
          · rw [hx] at hyn
            cases hyn
          · obtain ⟨e, he⟩ := ih ⟨y, hmem, hyn⟩
            exact ⟨e, by simp [koaBindAuthorization, hx, he]⟩

/-- A missing generic lookup makes the Koa generic bind throw. -/
theorem koaBindGenericList_missing (lG : MwLookup) (l : List IActionGenericMetadata)
    (h : ∃ x ∈ l, lG x.service x.name = none) :
    ∃ e, koaBindGenericList lG l = Except.error e := by
  induction l with
  | nil => simp at h
  | cons x xs ih =>
      cases hx : lG x.service x.name with
      | none =>
          exact ⟨"[ornate] Generic metadata not found for: " ++ x.name,
            by simp [koaBindGenericList, hx]⟩
      | some m =>
          obtain ⟨y, hy, hyn⟩ := h
          rcases List.mem_cons.mp hy with rfl | hmem
          · rw [hx] at hyn
            cases hyn
          · obtain ⟨e, he⟩ := ih ⟨y, hmem, hyn⟩
            exact ⟨e, by simp [koaBindGenericList, hx, he]⟩

/-- Mapping then reducing drops an entry whose image is none, with the
rest of the list unaffected. -/
theorem reduceOption_map_append_none {α β : Type} (f : α → Option β)
    (l1 l2 : List α) (x : α) (hx : f x = none) :
    ((l1 ++ x :: l2).map f).reduceOption
      = (l1.map f).reduceOption ++ (l2.map f).reduceOption := by
  induction l1 with
  | nil => simp [List.reduceOption, hx]
  | cons y ys ih =>
      cases hy : f y with
      | none => simpa [List.reduceOption, hy] using ih
      | some b => simpa [List.reduceOption, hy] using ih

/-! ## C3: module instance deduplication. -/

/-- C3 counterexample: in the Koa variant, the module class with token 1,
referenced from the submodule lists of the two distinct parents 2 and 3,
is constructed twice during registration — not at most once. -/
theorem koaModuleConstruction_duplicated :
    (koaModuleConstructionList
      [ModuleDecl.mk 0 none
        [ModuleDecl.mk 2 none [ModuleDecl.mk 1 none []],
         ModuleDecl.mk 3 none [ModuleDecl.mk 1 none []]]]).count 1 = 2
    ∧ ¬ ((koaModuleConstructionList
      [ModuleDecl.mk 0 none
        [ModuleDecl.mk 2 none [ModuleDecl.mk 1 none []],
         ModuleDecl.mk 3 none [ModuleDecl.mk 1 none []]]]).count 1 ≤ 1) := by
  have h : koaModuleConstructionList
      [ModuleDecl.mk 0 none
        [ModuleDecl.mk 2 none [ModuleDecl.mk 1 none []],
         ModuleDecl.mk 3 none [ModuleDecl.mk 1 none []]]] = [0, 2, 1, 3, 1] := by
    simp [koaModuleConstructionList]
  rw [h]
  decide

/-- C3 amended: in the Express variant, at most one instance of each
module class is constructed per application, even when the class appears
in the submodule lists of several parents (the MODULES cache dedups by
class identity); in the Koa variant, _registerModule constructs a fresh
instance on every registration, so a class referenced from several
submodule lists is constructed once per reference. This theorem proves
the Express half; the counterexample above exhibits the Koa half. -/
theorem expressModuleConstruction_atMostOnce :
    ∀ (rootModules : List ModuleDecl) (c : Nat),
      (expressModuleConstructionList rootModules).count c ≤ 1 := by
  intro rootModules c
  have h := (expressModuleWalk_spec [] rootModules).1
  exact List.nodup_iff_count_le_one.mp h c

/-! ## C6: route composition. -/

/-- C6: a module with route api containing a controller with route users
whose GET action has route :id registers at exactly GET /api/users/:id,
and an action whose own route is the empty string registers at exactly
the controller's composed path. -/
theorem routeComposition_correct :
    registerRoute ERequestMethod.GET
        (actionRoute (controllerRoute (moduleRoute "" (some "api")) (some "users")) ":id")
      = Except.ok (ERequestMethod.GET, "/api/users/:id")
    ∧ ∀ ctrl : String, actionRoute ctrl "" = ctrl := by
  constructor
  · rfl
  · intro ctrl
    simp [actionRoute]

/-! ## C7: decorator ordering round-trip. -/

/-- C7: for parameter decorators declared in source order, the
argument-metadata list accumulated by AppRegistry.defineResourceArg
iterates in declaration order: front insertion exactly compensates the
right-to-left execution order of parameter decorators. -/
theorem resourceArgs_declaration_order :
    ∀ decls : List IResourceArgMetadata, accumulateResourceArgs decls = decls := by
  intro decls
  unfold accumulateResourceArgs
  rw [foldl_cons_eq_reverse_append]
  simp

/-! ## C9: dependency resolution idempotence. -/

/-- C9: resolving the same service class twice returns the identical
instance and leaves the cache unchanged, in both variants
(AppInjector.newService and App._getServiceInstance): the instance is
created on the first request and never recreated. -/
theorem serviceResolution_idempotent :
    ∀ (target : Nat) (st : InjectorState),
      (newService target (newService target st).2).1 = (newService target st).1
      ∧ (newService target (newService target st).2).2 = (newService target st).2
      ∧ (getServiceInstance target (getServiceInstance target st).2).1
          = (getServiceInstance target st).1
      ∧ (getServiceInstance target (getServiceInstance target st).2).2
          = (getServiceInstance target st).2 := by
  intro target st
  refine ⟨?_, ?_, ?_, ?_⟩ <;>
    · simp only [newService, getServiceInstance]
      cases h : st.services.lookup target <;> simp [h, List.lookup]

/-! ## C1: middleware chain length and order. -/

/-- C1 counterexample: in the Express variant, an action with no
authentication, resolver, policy or hook middleware is registered with a
3-entry chain (initialise, checkPermissions, action), not the claimed
1 (init) + 0 + 0 + 0 + 0 + 1 (action) + 0 = 2 entries: the permission
check middleware is an extra fixed entry the claim does not count. -/
theorem expressChain_extraPermissionEntry :
    (expressRegisterActionHandlers (fun _ _ => none)
        ⟨ERequestMethod.GET, "", [], [], [], [], []⟩)
      = [Stage.initialise, Stage.checkPermissions, Stage.action]
    ∧ (expressRegisterActionHandlers (fun _ _ => none)
        ⟨ERequestMethod.GET, "", [], [], [], [], []⟩).length = 3
    ∧ claimedChainLength 0 0 0 0 0 = 2
    ∧ (3 : Nat) ≠ 2 := by
  refine ⟨rfl, rfl, rfl, by decide⟩

/-- C1 amended: when every metadata lookup succeeds, the Express variant
registers, in order, init, the authentication handlers in declaration
order, the resolvers in declaration order, one fixed permission-check
entry, the policy (validator) handlers, the before-hooks, the action,
and the after-hooks — 1 + number of auth entries + number of resolvers +
1 + number of policies + number of before-hooks + 1 + number of
after-hooks entries in total. The Koa variant registers init, the
authentication handlers, the authorization handlers, the before-hooks,
the action and the after-hooks — resolvers and validators are not
separate chain entries there (they run inside the action handler) — for
1 + number of authentication entries + number of authorization entries +
number of before-hooks + 1 + number of after-hooks entries. -/
theorem middlewareChain_perVariant :
    (∀ (lookup : MwLookup) (a : ExpressActionMetadata),
      ((∀ e ∈ a.auth, (lookup e.service e.name).isSome = true)
        ∧ (∀ e ∈ a.resolve, (lookup e.service e.name).isSome = true)
        ∧ (∀ e ∈ a.policies, (lookup e.service e.name).isSome = true)
        ∧ (∀ e ∈ a.middlewares, (lookup e.service e.name).isSome = true)) →
      expressRegisterActionHandlers lookup a
          = [Stage.initialise]
            ++ a.auth.map (fun e => Stage.authentication e.service e.name)
            ++ a.resolve.map (fun e => Stage.resolver e.service e.name)
            ++ [Stage.checkPermissions]
            ++ a.policies.map (fun e => Stage.policy e.service e.name)
            ++ ((a.middlewares.filter (fun m => m.order = EMiddlewareOrder.before)).reverse).map
                (fun m => Stage.generic m.order m.service m.name)
            ++ [Stage.action]
            ++ ((a.middlewares.filter (fun m => m.order = EMiddlewareOrder.after)).reverse).map
                (fun m => Stage.generic m.order m.service m.name)
        ∧ (expressRegisterActionHandlers lookup a).length
            = 1 + a.auth.length + a.resolve.length + 1 + a.policies.length
              + (a.middlewares.filter (fun m => m.order = EMiddlewareOrder.before)).length
              + 1
              + (a.middlewares.filter (fun m => m.order = EMiddlewareOrder.after)).length)
    ∧ (∀ (lA lP lG : MwLookup) (a : KoaActionMetadata),
      ((∀ e ∈ a.authentication, (lA e.service e.name).isSome = true)
        ∧ (∀ e ∈ a.authorization, (lP e.service e.name).isSome = true)
        ∧ (∀ e ∈ a.generics, (lG e.service e.name).isSome = true)) →
      koaRegisterActionHandlers lA lP lG a
          = Except.ok
              ([Stage.initialise]
                ++ a.authentication.map (fun e => Stage.authentication e.service e.name)
                ++ a.authorization.map (fun e => Stage.authorization e.service e.name)
                ++ ((a.generics.filter (fun m => m.order = EMiddlewareOrder.before)).reverse).map
                    (fun m => Stage.generic m.order m.service m.name)
                ++ [Stage.action]
                ++ ((a.generics.filter (fun m => m.order = EMiddlewareOrder.after)).reverse).map
                    (fun m => Stage.generic m.order m.service m.name))
        ∧ ([Stage.initialise]
            ++ a.authentication.map (fun e => Stage.authentication e.service e.name)
            ++ a.authorization.map (fun e => Stage.authorization e.service e.name)
            ++ ((a.generics.filter (fun m => m.order = EMiddlewareOrder.before)).reverse).map
                (fun m => Stage.generic m.order m.service m.name)
            ++ [Stage.action]
            ++ ((a.generics.filter (fun m => m.order = EMiddlewareOrder.after)).reverse).map
                (fun m => Stage.generic m.order m.service m.name)).length
            = 1 + a.authentication.length + a.authorization.length
              + (a.generics.filter (fun m => m.order = EMiddlewareOrder.before)).length
              + 1
              + (a.generics.filter (fun m => m.order = EMiddlewareOrder.after)).length) := by
  constructor
  · intro lookup a h
    obtain ⟨hAuth, hRes, hPol, hMw⟩ := h
    have eAuth : expressBindAuthResolvers lookup a.auth
        = a.auth.map (fun e => Stage.authentication e.service e.name) := by
      refine reduceOption_map_all_some _ _ _ ?_
      intro x hx
      obtain ⟨m, hm⟩ := Option.isSome_iff_exists.mp (hAuth x hx)
      simp [hm]
    have eRes : expressBindResourceResolvers lookup a.resolve
        = a.resolve.map (fun e => Stage.resolver e.service e.name) := by
      refine reduceOption_map_all_some _ _ _ ?_
      intro x hx
      obtain ⟨m, hm⟩ := Option.isSome_iff_exists.mp (hRes x hx)
      simp [hm]
    have ePol : expressBindPolicies lookup a.policies
        = a.policies.map (fun e => Stage.policy e.service e.name) := by
      refine reduceOption_map_all_some _ _ _ ?_
      intro x hx
      obtain ⟨m, hm⟩ := Option.isSome_iff_exists.mp (hPol x hx)
      simp [hm]
    have eBef : expressBindMiddlewares lookup a.middlewares EMiddlewareOrder.before
        = ((a.middlewares.filter (fun m => m.order = EMiddlewareOrder.before)).reverse).map
            (fun m => Stage.generic m.order m.service m.name) := by
      refine reduceOption_map_all_some _ _ _ ?_
      intro x hx
      have hxm : x ∈ a.middlewares := by
        have := List.mem_reverse.mp hx
        exact List.mem_of_mem_filter this
      obtain ⟨m, hm⟩ := Option.isSome_iff_exists.mp (hMw x hxm)
      simp [hm]
    have eAft : expressBindMiddlewares lookup a.middlewares EMiddlewareOrder.after
        = ((a.middlewares.filter (fun m => m.order = EMiddlewareOrder.after)).reverse).map
            (fun m => Stage.generic m.order m.service m.name) := by
      refine reduceOption_map_all_some _ _ _ ?_
      intro x hx
      have hxm : x ∈ a.middlewares := by
        have := List.mem_reverse.mp hx
        exact List.mem_of_mem_filter this
      obtain ⟨m, hm⟩ := Option.isSome_iff_exists.mp (hMw x hxm)
      simp [hm]
    have hchain : expressRegisterActionHandlers lookup a
        = [Stage.initialise]
          ++ a.auth.map (fun e => Stage.authentication e.service e.name)
          ++ a.resolve.map (fun e => Stage.resolver e.service e.name)
          ++ [Stage.checkPermissions]
          ++ a.policies.map (fun e => Stage.policy e.service e.name)
          ++ ((a.middlewares.filter (fun m => m.order = EMiddlewareOrder.before)).reverse).map
              (fun m => Stage.generic m.order m.service m.name)
          ++ [Stage.action]
          ++ ((a.middlewares.filter (fun m => m.order = EMiddlewareOrder.after)).reverse).map
              (fun m => Stage.generic m.order m.service m.name) := by
      rw [expressRegisterActionHandlers, eAuth, eRes, ePol, eBef, eAft]
    refine ⟨hchain, ?_⟩
    rw [hchain]
    simp only [List.length_append, List.length_map, List.length_cons,
      List.length_nil, List.length_reverse]
  · intro lA lP lG a h
    obtain ⟨hAuth, hAuthz, hGen⟩ := h
    have hBefAll : ∀ x ∈ (a.generics.filter
        (fun m => m.order = EMiddlewareOrder.before)).reverse,
        (lG x.service x.name).isSome = true := by
      intro x hx
      exact hGen x (List.mem_of_mem_filter (List.mem_reverse.mp hx))
    have hAftAll : ∀ x ∈ (a.generics.filter
        (fun m => m.order = EMiddlewareOrder.after)).reverse,
        (lG x.service x.name).isSome = true := by
      intro x hx
      exact hGen x (List.mem_of_mem_filter (List.mem_reverse.mp hx))
    constructor
    · rw [koaRegisterActionHandlers, koaBindAuthentication_all lA _ hAuth,
        koaBindAuthorization_all lP _ hAuthz]
      rw [koaBindGenerics, koaBindGenericList_all lG _ hBefAll]
      rw [koaBindGenerics, koaBindGenericList_all lG _ hAftAll]
    · simp only [List.length_append, List.length_map, List.length_cons,
        List.length_nil, List.length_reverse]

/-- C1 witness: the amended chain shape at a concrete lookup that
resolves every name and an action carrying one entry of each kind. -/
theorem middlewareChain_perVariant_witness :
    (((∀ e ∈ [(⟨1, "a", 0⟩ : IActionAuthMetadata)],
        ((fun _ _ => some (⟨1, "m"⟩ : IMiddlewareMetadata)) e.service e.name).isSome = true)
      ∧ (∀ e ∈ [(⟨2, "r", 1, true⟩ : IActionResourceMetadata)],
        ((fun _ _ => some (⟨1, "m"⟩ : IMiddlewareMetadata)) e.service e.name).isSome = true)
      ∧ (∀ e ∈ [(⟨3, "p", 1⟩ : IActionPolicyMetadata)],
        ((fun _ _ => some (⟨1, "m"⟩ : IMiddlewareMetadata)) e.service e.name).isSome = true)
      ∧ (∀ e ∈ [(⟨4, "b", EMiddlewareOrder.before⟩ : IActionGenericMetadata)],
        ((fun _ _ => some (⟨1, "m"⟩ : IMiddlewareMetadata)) e.service e.name).isSome = true)))
    ∧ (expressRegisterActionHandlers (fun _ _ => some ⟨1, "m"⟩)
        ⟨ERequestMethod.GET, "", [⟨1, "a", 0⟩], [⟨2, "r", 1, true⟩], [⟨3, "p", 1⟩],
          [⟨4, "b", EMiddlewareOrder.before⟩], []⟩).length
        = 1 + 1 + 1 + 1 + 1 + 1 + 1 + 0 :=
  ⟨⟨fun e _ => rfl, fun e _ => rfl, fun e _ => rfl, fun e _ => rfl⟩,
    by
      have h := (middlewareChain_perVariant.1 (fun _ _ => some ⟨1, "m"⟩)
        ⟨ERequestMethod.GET, "", [⟨1, "a", 0⟩], [⟨2, "r", 1, true⟩], [⟨3, "p", 1⟩],
          [⟨4, "b", EMiddlewareOrder.before⟩], []⟩
        ⟨fun e _ => rfl, fun e _ => rfl, fun e _ => rfl, fun e _ => rfl⟩).2
      simpa using h⟩

/-! ## C2: metadata lookup failure handling. -/

/-- C2 counterexample: in the Express variant, an action declaring one
authentication middleware whose registry lookup is missing binds
without any error: _bindAuthResolvers logs a warning and filters the
handler out, so route wiring completes with the entry silently skipped
rather than raising a fatal wiring-time error. -/
theorem expressMissingLookup_skipsSilently :
    expressBindAuthResolvers (fun _ _ => none) [⟨1, "token", 0⟩] = []
    ∧ expressRegisterActionHandlers (fun _ _ => none)
        ⟨ERequestMethod.GET, "", [⟨1, "token", 0⟩], [], [], [], []⟩
      = [Stage.initialise, Stage.checkPermissions, Stage.action] := by
  exact ⟨rfl, rfl⟩

/-- C2 amended: in the Koa variant, authentication, authorization and
generic middleware entries are looked up during route binding and a
missing lookup throws a fatal error at wiring time; but resolver and
validator entries are looked up per request inside the request pipeline,
where a missing lookup throws a request-time ParameterError (status
400). In the Express variant a missing lookup of any entry logs a
warning and skips that handler, raising no error at all. -/
theorem metadataLookup_perVariant :
    (∀ (lA : MwLookup) (l : List IActionAuthMetadata),
      (∃ x ∈ l, lA x.service x.name = none) →
      ∃ e, koaBindAuthentication lA l = Except.error e)
    ∧ (∀ (lP : MwLookup) (l : List IActionAuthorizationMetadata),
      (∃ x ∈ l, lP x.service x.name = none) →
      ∃ e, koaBindAuthorization lP l = Except.error e)
    ∧ (∀ (lG : MwLookup) (generics : List IActionGenericMetadata)
        (order : EMiddlewareOrder) (g : IActionGenericMetadata),
      g ∈ generics → g.order = order → lG g.service g.name = none →
      ∃ e, koaBindGenerics lG generics order = Except.error e)
    ∧ (∀ (lookupR : MwLookup) (mwResult : Nat → String → Option String)
        (r : IResourceResolverMetadata) (rest : List IResourceResolverMetadata)
        (args : Nat → Option String),
      lookupR r.service r.name = none →
      koaHandleResourceResolvers lookupR mwResult (r :: rest) args
        = Except.error (Thrown.app (ParameterError
            ("[ornate] Resolver metadata not found for: " ++ r.name)))
      ∧ (Thrown.app (ParameterError
          ("[ornate] Resolver metadata not found for: " ++ r.name))).status = BAD_REQUEST)
    ∧ (∀ (lookupP : MwLookup) (mwResult : Nat → String → Bool)
        (v : IResourceValidatorMetadata) (rest : List IResourceValidatorMetadata),
      lookupP v.service v.name = none →
      koaHandleResourceValidators lookupP mwResult (v :: rest)
        = Except.error (Thrown.app (ParameterError
            ("[ornate] Validator policy metadata not found for: " ++ v.name)))
      ∧ (Thrown.app (ParameterError
          ("[ornate] Validator policy metadata not found for: " ++ v.name))).status
            = BAD_REQUEST)
    ∧ (∀ (lookup : MwLookup) (l1 l2 : List IActionAuthMetadata)
        (x : IActionAuthMetadata),
      lookup x.service x.name = none →
      expressBindAuthResolvers lookup (l1 ++ x :: l2)
        = expressBindAuthResolvers lookup l1 ++ expressBindAuthResolvers lookup l2) := by
  refine ⟨?_, ?_, ?_, ?_, ?_, ?_⟩
  · intro lA l h
    exact koaBindAuthentication_missing lA l h
  · intro lP l h
    exact koaBindAuthorization_missing lP l h
  · intro lG generics order g hmem horder hnone
    refine koaBindGenericList_missing lG _ ⟨g, ?_, hnone⟩
    rw [List.mem_reverse, List.mem_filter]
    exact ⟨hmem, by simp [horder]⟩
  · intro lookupR mwResult r rest args hnone
    exact ⟨by simp [koaHandleResourceResolvers, hnone], rfl⟩
  · intro lookupP mwResult v rest hnone
    exact ⟨by simp [koaHandleResourceValidators, hnone], rfl⟩
  · intro lookup l1 l2 x hnone
    unfold expressBindAuthResolvers
    rw [reduceOption_map_append_none]
    simp [hnone]

/-- C2 witness: the amended statements at singleton entries and a lookup
with no registered middleware. -/
theorem metadataLookup_perVariant_witness :
    ((∃ x ∈ [(⟨1, "token", 0⟩ : IActionAuthMetadata)],
        (fun _ _ => (none : Option IMiddlewareMetadata)) x.service x.name = none)
      ∧ (⟨5, "log", EMiddlewareOrder.before⟩ : IActionGenericMetadata)
          ∈ [(⟨5, "log", EMiddlewareOrder.before⟩ : IActionGenericMetadata)]
      ∧ (⟨5, "log", EMiddlewareOrder.before⟩ : IActionGenericMetadata).order
          = EMiddlewareOrder.before)
    ∧ (∃ e, koaBindAuthentication (fun _ _ => none)
        [(⟨1, "token", 0⟩ : IActionAuthMetadata)] = Except.error e)
    ∧ (∃ e, koaBindAuthorization (fun _ _ => none)
        [(⟨2, "admin"⟩ : IActionAuthorizationMetadata)] = Except.error e)
    ∧ (∃ e, koaBindGenerics (fun _ _ => none)
        [(⟨5, "log", EMiddlewareOrder.before⟩ : IActionGenericMetadata)]
        EMiddlewareOrder.before = Except.error e)
    ∧ koaHandleResourceResolvers (fun _ _ => none) (fun _ _ => none)
        [(⟨3, 0, "user", false⟩ : IResourceResolverMetadata)] (fun _ => none)
      = Except.error (Thrown.app (ParameterError
          ("[ornate] Resolver metadata not found for: " ++ "user")))
    ∧ koaHandleResourceValidators (fun _ _ => none) (fun _ _ => true)
        [(⟨4, 0, "own"⟩ : IResourceValidatorMetadata)]
      = Except.error (Thrown.app (ParameterError
          ("[ornate] Validator policy metadata not found for: " ++ "own")))
    ∧ expressBindAuthResolvers (fun _ _ => none)
        ([] ++ (⟨1, "token", 0⟩ : IActionAuthMetadata) :: [])
      = expressBindAuthResolvers (fun _ _ => none) []
        ++ expressBindAuthResolvers (fun _ _ => none) [] :=
  ⟨⟨⟨⟨1, "token", 0⟩, by simp⟩, by simp, rfl⟩,
    metadataLookup_perVariant.1 (fun _ _ => none) [⟨1, "token", 0⟩]
      ⟨⟨1, "token", 0⟩, by simp⟩,
    metadataLookup_perVariant.2.1 (fun _ _ => none) [⟨2, "admin"⟩]
      ⟨⟨2, "admin"⟩, by simp⟩,
    metadataLookup_perVariant.2.2.1 (fun _ _ => none)
      [⟨5, "log", EMiddlewareOrder.before⟩] EMiddlewareOrder.before
      ⟨5, "log", EMiddlewareOrder.before⟩ (by simp) rfl rfl,
    (metadataLookup_perVariant.2.2.2.1 (fun _ _ => none) (fun _ _ => none)
      ⟨3, 0, "user", false⟩ [] (fun _ => none) rfl).1,
    (metadataLookup_perVariant.2.2.2.2.1 (fun _ _ => none) (fun _ _ => true)
      ⟨4, 0, "own"⟩ [] rfl).1,
    metadataLookup_perVariant.2.2.2.2.2 (fun _ _ => none) [] []
      ⟨1, "token", 0⟩ rfl⟩

/-! ## C4: failing authentication. -/

/-- C4 counterexample: in the Express variant, an authentication
middleware returning a falsy value (none) does not produce a 401 and
does not stop the chain: _handleAuth stores the result and calls next(),
so the action handler runs and determines the status (here 200). -/
theorem expressAuth_falsyReachesAction :
    expressExec
        [ExpressStage.auth "token" (Except.ok none), ExpressStage.action OK]
        200 false = (OK, true)
    ∧ OK ≠ UNAUTHORIZED := by
  decide

/-- C4 amended: in the Koa variant, an authentication middleware that
returns a falsy value or throws an AuthenticationError yields 401 with
the action handler never invoked, and one that throws any other error
yields that error's status (500 for unrecognized errors), likewise
without invoking the action; when every authentication middleware
returns a truthy value, the action runs and sets the status. In the
Express variant a falsy authentication result is stored and the chain
continues to the action handler; only a thrown error stops the chain
there, with the thrown error's mapped status. -/
theorem authenticationGating_perVariant :
    (∀ (names : List String) (name : String) (post : List KoaStage)
        (st : Nat) (inv : Bool),
      koaExec (names.map (fun n => KoaStage.auth n (Except.ok true))
          ++ KoaStage.auth name (Except.ok false) :: post) st inv
        = (UNAUTHORIZED, inv))
    ∧ (∀ (names : List String) (name msg : String) (post : List KoaStage)
        (st : Nat) (inv : Bool),
      koaExec (names.map (fun n => KoaStage.auth n (Except.ok true))
          ++ KoaStage.auth name
              (Except.error (Thrown.app (AuthenticationError msg))) :: post) st inv
        = (UNAUTHORIZED, inv))
    ∧ (∀ (names : List String) (name msg : String) (post : List KoaStage)
        (st : Nat) (inv : Bool),
      koaExec (names.map (fun n => KoaStage.auth n (Except.ok true))
          ++ KoaStage.auth name (Except.error (Thrown.generic msg)) :: post) st inv
        = (INTERNAL_SERVER_ERROR, inv))
    ∧ (∀ (names : List String) (s st : Nat) (inv : Bool),
      koaExec (names.map (fun n => KoaStage.auth n (Except.ok true))
          ++ [KoaStage.action s]) st inv = (s, true))
    ∧ (∀ (results : List (String × Option Nat)) (s st : Nat) (inv : Bool),
      expressExec (results.map (fun p => ExpressStage.auth p.1 (Except.ok p.2))
          ++ [ExpressStage.action s]) st inv = (s, true))
    ∧ (∀ (results : List (String × Option Nat)) (name : String) (t : Thrown)
        (post : List ExpressStage) (st : Nat) (inv : Bool),
      expressExec (results.map (fun p => ExpressStage.auth p.1 (Except.ok p.2))
          ++ ExpressStage.auth name (Except.error t) :: post) st inv
        = (t.status, inv)) := by
  refine ⟨?_, ?_, ?_, ?_, ?_, ?_⟩
  · intro names name post st inv
    induction names with
    | nil => simp [koaExec, Thrown.status, AuthenticationError]
    | cons n ns ih => simpa [koaExec] using ih
  · intro names name msg post st inv
    induction names with
    | nil => simp [koaExec, Thrown.status, AuthenticationError]
    | cons n ns ih => simpa [koaExec] using ih
  · intro names name msg post st inv
    induction names with
    | nil => simp [koaExec, Thrown.status]
    | cons n ns ih => simpa [koaExec] using ih
  · intro names s st inv
    induction names with
    | nil => simp [koaExec]
    | cons n ns ih => simpa [koaExec] using ih
  · intro results s st inv
    induction results with
    | nil => simp [expressExec]
    | cons p ps ih => simpa [expressExec] using ih
  · intro results name t post st inv
    induction results with
    | nil => simp [expressExec]
    | cons p ps ih => simpa [expressExec] using ih

/-! ## C5: required resolver producing undefined. -/

/-- C5 counterexample: in the Koa variant, a resolver declared required
(the Resolve decorator stores optional = false for required = true)
whose middleware returns undefined does not yield a 400:
_handleResourceResolvers assigns the undefined result to the bound
argument position and the pipeline continues, so the action sees
undefined at index 0 where the original value was "42". -/
theorem koaResolver_undefinedPassesThrough :
    Except.map (fun f => f 0)
        (koaHandleResourceResolvers (fun _ _ => some ⟨0, "user"⟩) (fun _ _ => none)
          [⟨0, 0, "user", false⟩] (fun _ => some "42"))
      = Except.ok none := by
  rfl

/-- C5 amended: in the Express variant, a resolver returning undefined
for a required resolution throws ParameterError (status 400), and a
defined result is written to the declared argument position, where the
action receives it; in the Koa variant the resolver result is assigned
to the argument position without any required/undefined check, so an
undefined result flows through to the action without a 400. -/
theorem resolverRequired_perVariant :
    (∀ (rm : IActionResourceMetadata) (args : List (Option String)),
      rm.required = true → rm.index < args.length →
      expressHandleResolve rm (Except.ok none) args
          = Except.error (Thrown.app (ParameterError
              ("[ornate] Could not resolve resource: " ++ rm.name)))
        ∧ (Thrown.app (ParameterError
            ("[ornate] Could not resolve resource: " ++ rm.name))).status = BAD_REQUEST)
    ∧ (∀ (rm : IActionResourceMetadata) (args : List (Option String)) (v : String),
      rm.index < args.length →
      expressHandleResolve rm (Except.ok (some v)) args
          = Except.ok (args.set rm.index (some v))
        ∧ (args.set rm.index (some v)).getD rm.index none = some v)
    ∧ (∀ (lookupR : MwLookup) (mwResult : Nat → String → Option String)
        (r : IResourceResolverMetadata) (rest : List IResourceResolverMetadata)
        (args : Nat → Option String) (m : IMiddlewareMetadata),
      lookupR r.service r.name = some m →
      koaHandleResourceResolvers lookupR mwResult (r :: rest) args
        = koaHandleResourceResolvers lookupR mwResult rest
            (fun j => if j = r.index then mwResult r.service r.name else args j)) := by
  refine ⟨?_, ?_, ?_⟩
  · intro rm args hreq hidx
    have hle : ¬ (args.length ≤ rm.index) := by omega
    constructor
    · simp [expressHandleResolve, hle, hreq]
    · simp [Thrown.status, ParameterError]
  · intro rm args v hidx
    have hle : ¬ (args.length ≤ rm.index) := by omega
    constructor
    · simp [expressHandleResolve, hle]
    · simp [List.getD, List.getElem?_set, hidx]
  · intro lookupR mwResult r rest args m hm
    simp [koaHandleResourceResolvers, hm]

/-- C5 witness: the amended Express statements at a concrete required
resolver bound to index 0 of a one-slot argument array. -/
theorem resolverRequired_perVariant_witness :
    (((⟨0, "user", 0, true⟩ : IActionResourceMetadata).required = true
        ∧ (⟨0, "user", 0, true⟩ : IActionResourceMetadata).index
            < ([some "x"] : List (Option String)).length)
      ∧ (0 : Nat) < ([some "x"] : List (Option String)).length)
    ∧ (expressHandleResolve ⟨0, "user", 0, true⟩ (Except.ok none) [some "x"]
          = Except.error (Thrown.app (ParameterError
              ("[ornate] Could not resolve resource: " ++ "user"))))
    ∧ (expressHandleResolve ⟨0, "user", 0, true⟩ (Except.ok (some "v")) [some "x"]
          = Except.ok (([some "x"] : List (Option String)).set 0 (some "v"))) :=
  ⟨⟨⟨rfl, by decide⟩, by decide⟩,
    (resolverRequired_perVariant.1 ⟨0, "user", 0, true⟩ [some "x"] rfl (by decide)).1,
    (resolverRequired_perVariant.2.1 ⟨0, "user", 0, true⟩ [some "x"] "v" (by decide)).1⟩

/-! ## C8: required argument bindings. -/

/-- C8: in both variants, a required argument binding whose key is
absent from the request facet throws ParameterError (mapped to status
400), provided the bindings processed before it do not fail; and when
every required binding's key is present, processing the binding list
succeeds. The Express variant matches the lowercased key for headers. -/
theorem requiredArgBinding_behaviour :
    (∀ (source : String → Option String) (pre : List IResourceArgMetadata)
        (am : IResourceArgMetadata) (post : List IResourceArgMetadata)
        (args : Nat → Option String),
      (∀ b ∈ pre, b.required = true → (source b.name).isSome = true) →
      am.required = true → source am.name = none →
      koaHandleRequestSource source (pre ++ am :: post) args
        = Except.error (Thrown.app (ParameterError
            ("[ornate] Required " ++ am.type.label ++ " argument not found: " ++ am.name))))
    ∧ (∀ (source : String → Option String) (ams : List IResourceArgMetadata)
        (args : Nat → Option String),
      (∀ b ∈ ams, b.required = true → (source b.name).isSome = true) →
      ∃ res, koaHandleRequestSource source ams args = Except.ok res)
    ∧ (∀ (src : String → Option String) (lowercase : Bool)
        (pre : List IResourceArgMetadata) (am : IResourceArgMetadata)
        (post : List IResourceArgMetadata) (args : Nat → Option String),
      (∀ b ∈ pre, b.required = true →
        (src (if lowercase then b.name.toLower else b.name)).isSome = true) →
      am.required = true →
      src (if lowercase then am.name.toLower else am.name) = none →
      expressHandleRequestSource (some src) lowercase (pre ++ am :: post) args
        = Except.error (Thrown.app (ParameterError
            ("[ornate] Required " ++ am.type.label ++ " argument not found: " ++ am.name))))
    ∧ (∀ (src : String → Option String) (lowercase : Bool)
        (ams : List IResourceArgMetadata) (args : Nat → Option String),
      (∀ b ∈ ams, b.required = true →
        (src (if lowercase then b.name.toLower else b.name)).isSome = true) →
      ∃ res, expressHandleRequestSource (some src) lowercase ams args = Except.ok res)
    ∧ (∀ m : String, (Thrown.app (ParameterError m)).status = BAD_REQUEST) := by
  refine ⟨?_, ?_, ?_, ?_, ?_⟩
  · intro source pre am post args hpre ham hnone
    induction pre generalizing args with
    | nil =>
        simp [koaHandleRequestSource, ham, hnone]
    | cons b pre ih =>
        have hb : (b.required && (source b.name).isNone) = false := by
          cases hrb : b.required with
          | false => rfl
          | true =>
              have h1 := hpre b (by simp) hrb
              cases hs : source b.name with
              | none => rw [hs] at h1; simp at h1
              | some v => simp
        have ihx := ih (fun j => if j = b.index then source b.name else args j)
          (fun x hx => hpre x (by simp [hx]))
        simp [koaHandleRequestSource, hb, ihx]
  · intro source ams args hall
    induction ams generalizing args with
    | nil => exact ⟨(args, []), rfl⟩
    | cons b rest ih =>
        have hb : (b.required && (source b.name).isNone) = false := by
          cases hrb : b.required with
          | false => rfl
          | true =>
              have h1 := hall b (by simp) hrb
              cases hs : source b.name with
              | none => rw [hs] at h1; simp at h1
              | some v => simp
        obtain ⟨⟨resArgs, resKeys⟩, hres⟩ :=
          ih (fun j => if j = b.index then source b.name else args j)
            (fun x hx => hall x (by simp [hx]))
        refine ⟨(resArgs, b.name :: resKeys), ?_⟩
        simp [koaHandleRequestSource, hb, hres]
  · intro src lowercase pre am post args hpre ham hnone
    induction pre generalizing args with
    | nil =>
        simp [expressHandleRequestSource, ham, hnone]
    | cons b pre ih =>
        have hb : (b.required
            && (src (if lowercase then b.name.toLower else b.name)).isNone) = false := by
          cases hrb : b.required with
          | false => rfl
          | true =>
              have h1 := hpre b (by simp) hrb
              cases hs : src (if lowercase then b.name.toLower else b.name) with
              | none => rw [hs] at h1; simp at h1
              | some v => simp [hs]
        have ihx := ih (fun j =>
            if j = b.index then src (if lowercase then b.name.toLower else b.name)
            else args j)
          (fun x hx => hpre x (by simp [hx]))
        simp [expressHandleRequestSource, hb, ihx]
  · intro src lowercase ams args hall
    induction ams generalizing args with
    | nil => exact ⟨(args, []), rfl⟩
    | cons b rest ih =>
        have hb : (b.required
            && (src (if lowercase then b.name.toLower else b.name)).isNone) = false := by
          cases hrb : b.required with
          | false => rfl
          | true =>
              have h1 := hall b (by simp) hrb
              cases hs : src (if lowercase then b.name.toLower else b.name) with
              | none => rw [hs] at h1; simp at h1
              | some v => simp [hs]
        obtain ⟨⟨resArgs, resKeys⟩, hres⟩ := ih (fun j =>
            if j = b.index then src (if lowercase then b.name.toLower else b.name)
            else args j)
          (fun x hx => hall x (by simp [hx]))
        refine ⟨(resArgs, b.name :: resKeys), ?_⟩
        simp [expressHandleRequestSource, hb, hres]
  · intro m
    rfl

/-- C8 witness: a required query binding named q, absent from an empty
facet, throws ParameterError in both variants; the same binding with
q present processes successfully in both variants. -/
theorem requiredArgBinding_behaviour_witness :
    ((∀ b ∈ ([] : List IResourceArgMetadata), b.required = true →
        ((fun _ => (none : Option String)) b.name).isSome = true)
      ∧ (⟨EArgType.query, 0, "q", true⟩ : IResourceArgMetadata).required = true
      ∧ (fun _ => (none : Option String)) "q" = none
      ∧ (∀ b ∈ [(⟨EArgType.query, 0, "q", true⟩ : IResourceArgMetadata)],
          b.required = true → ((fun _ => some "1") b.name).isSome = true))
    ∧ koaHandleRequestSource (fun _ => none)
        ([] ++ (⟨EArgType.query, 0, "q", true⟩ : IResourceArgMetadata) :: [])
        (fun _ => none)
        = Except.error (Thrown.app (ParameterError
            ("[ornate] Required " ++ EArgType.query.label ++ " argument not found: " ++ "q")))
    ∧ (∃ res, koaHandleRequestSource (fun _ => some "1")
        [⟨EArgType.query, 0, "q", true⟩] (fun _ => none) = Except.ok res)
    ∧ expressHandleRequestSource (some (fun _ => none)) false
        ([] ++ (⟨EArgType.query, 0, "q", true⟩ : IResourceArgMetadata) :: [])
        (fun _ => none)
        = Except.error (Thrown.app (ParameterError
            ("[ornate] Required " ++ EArgType.query.label ++ " argument not found: " ++ "q")))
    ∧ (∃ res, expressHandleRequestSource (some (fun _ => some "1")) false
        [⟨EArgType.query, 0, "q", true⟩] (fun _ => none) = Except.ok res) :=
  ⟨⟨fun b hb => absurd hb (List.not_mem_nil b), rfl, rfl,
      fun b hb _ => by simp⟩,
    requiredArgBinding_behaviour.1 (fun _ => none) [] ⟨EArgType.query, 0, "q", true⟩ []
      (fun _ => none) (fun b hb => absurd hb (List.not_mem_nil b)) rfl rfl,
    requiredArgBinding_behaviour.2.1 (fun _ => some "1")
      [⟨EArgType.query, 0, "q", true⟩] (fun _ => none) (fun b _ _ => by simp),
    requiredArgBinding_behaviour.2.2.1 (fun _ => none) false [] ⟨EArgType.query, 0, "q", true⟩ []
      (fun _ => none) (fun b hb => absurd hb (List.not_mem_nil b)) rfl rfl,
    requiredArgBinding_behaviour.2.2.2.1 (fun _ => some "1") false
      [⟨EArgType.query, 0, "q", true⟩] (fun _ => none) (fun b _ _ => by simp)⟩

/-! ## C10: Express permission check never forbids. -/

/-- C10: in the Express variant, whenever an authorization service is
configured, _checkPermissions calls next() for every request and its 403
branch is unreachable: checkRoutePermissions returns a Promise that is
used unawaited as a boolean condition, and a Promise object is truthy
regardless of the boolean it resolves to. -/
theorem checkPermissions_alwaysNext :
    (∀ (svc : IAuthorizationService) (authentication : List IAuthentication)
        (method : ERequestMethod) (route : String),
      checkPermissions (some svc) authentication method route = PermOutcome.nextCalled)
    ∧ ∀ b : Bool, (JsPromise.mk b).truthy = true := by
  constructor
  · intro svc authentication method route
    simp [checkPermissions, JsPromise.truthy]
  · intro b
    rfl

end Ornate
